import Mathlib

/-
Shallow embedding of nomad/blocked_evals.go: the blocked-evaluation tracker.
Go maps are modelled as association lists (insert replaces an existing
binding, lookup returns the binding if present); the unordered Go map
iteration in the unblock worker is rendered as list filters, which is
order-insensitive in every property stated below.  Channels are modelled
only through their observable effects: the unblock worker is embedded as
the body of one loop iteration (one received notification), the stop
channel as the boolean signal FlushSig reports, and the duplicate wake-up
channel is dropped (it carries no data; GetDuplicates re-polls the list).
Mutex acquire and release are modelled by the lockReleased output of the
worker step: the Go body acquires the exclusive lock after receiving a
notification and the flag records whether the matching unlock is reached.
-/

/-- The fields of structs.Evaluation that blocked_evals.go reads: ID, JobID,
EscapedComputedClass and ClassEligibility (a Go map from computed node class
to eligibility verdict, modelled as an association list). -/
structure Evaluation where
  ID : String
  JobID : String
  EscapedComputedClass : Bool
  ClassEligibility : List (String × Bool)
  deriving DecidableEq

/-- Go map lookup on an association list: the binding for the key, if any. -/
def lookupA {β : Type} (k : String) : List (String × β) → Option β
  | [] => none
  | (k2, v) :: rest => if k2 = k then some v else lookupA k rest

/-- Go map insert on an association list: replace the binding if the key is
present, otherwise add a binding. -/
def mapInsert {β : Type} (k : String) (v : β) : List (String × β) → List (String × β)
  | [] => [(k, v)]
  | (k2, v2) :: rest => if k2 = k then (k, v) :: rest else (k2, v2) :: mapInsert k v rest

/-- BlockedStats from blocked_evals.go (Go int counters modelled as Int). -/
structure BlockedStats where
  TotalEscaped : Int
  TotalBlocked : Int
  deriving DecidableEq

/-- The state of the BlockedEvals tracker: the enabled and running flags, the
stats counters, the captured and escaped maps (evaluation ID to evaluation),
the jobs set (job IDs with one blocked evaluation) and the duplicates list.
The evalBroker, the channels and the mutex have no data content and are
modelled through the operations below. -/
structure BlockedEvals where
  enabled : Bool
  running : Bool
  stats : BlockedStats
  captured : List (String × Evaluation)
  escaped : List (String × Evaluation)
  jobs : List String
  duplicates : List Evaluation
  deriving DecidableEq

/-- NewBlockedEvals: empty maps, zero stats, disabled, not running. -/
def NewBlockedEvals : BlockedEvals :=
  { enabled := false
    running := false
    stats := { TotalEscaped := 0, TotalBlocked := 0 }
    captured := []
    escaped := []
    jobs := []
    duplicates := [] }

/-- Enabled returns the enabled flag. -/
def Enabled (b : BlockedEvals) : Bool := b.enabled

/-- Block from blocked_evals.go.  Not enabled: no-op.  Job already tracked:
append the evaluation to duplicates (the non-blocking send on duplicateCh
carries no data and is not modelled).  Otherwise increment TotalBlocked, mark
the job tracked, and insert into escaped (also incrementing TotalEscaped) or
captured according to EscapedComputedClass.  The Go code increments
TotalBlocked before branching on the flag; the branch-local combined stats
updates below are the same assignments. -/
def Block (eval : Evaluation) (b : BlockedEvals) : BlockedEvals :=
  if b.enabled = false then b
  else if eval.JobID ∈ b.jobs then
    { b with duplicates := b.duplicates ++ [eval] }
  else if eval.EscapedComputedClass then
    { b with
      stats := { TotalEscaped := b.stats.TotalEscaped + 1
                 TotalBlocked := b.stats.TotalBlocked + 1 }
      jobs := eval.JobID :: b.jobs
      escaped := mapInsert eval.ID eval b.escaped }
  else
    { b with
      stats := { b.stats with TotalBlocked := b.stats.TotalBlocked + 1 }
      jobs := eval.JobID :: b.jobs
      captured := mapInsert eval.ID eval b.captured }

/-- A captured evaluation is released by a notification for computedClass
unless its ClassEligibility explicitly maps that class to false: the Go loop
skips the evaluation only when the lookup succeeds with a false verdict. -/
def releaseEval (computedClass : String) (e : Evaluation) : Bool :=
  match lookupA computedClass e.ClassEligibility with
  | some elig => elig
  | none => true

/-- Output of one iteration of the unblock worker body: the new store state,
the batch handed to evalBroker.EnqueueAll, and whether the exclusive lock
acquired after receiving the notification is released again on that path. -/
structure UnblockOut where
  state : BlockedEvals
  enqueued : List Evaluation
  lockReleased : Bool
  deriving DecidableEq

/-- One iteration of the unblock worker loop body in blocked_evals.go for a
received computedClass.  If running is false the body returns immediately:
the store is untouched and the function returns without reaching the
b.l.Unlock() call, so lockReleased is false on that path.  Otherwise every
escaped evaluation is moved to the unblock batch, every captured evaluation
not explicitly marked ineligible for the class is moved to the batch, the
jobs of batched evaluations are untracked (the sequential Go map deletes
amount to one filter), and when the batch is non-empty TotalEscaped is reset
to 0, TotalBlocked is decreased by the batch size, and the batch is handed to
EnqueueAll.  The enqueued field holds the batch (EnqueueAll is simply not
called when it is empty). -/
def unblockStep (computedClass : String) (b : BlockedEvals) : UnblockOut :=
  if b.running = false then { state := b, enqueued := [], lockReleased := false }
  else
    let escapedEvals := b.escaped.map (fun p => p.2)
    let released := (b.captured.filter (fun p => releaseEval computedClass p.2)).map (fun p => p.2)
    let unblocked := escapedEvals ++ released
    { state :=
        { b with
          escaped := []
          captured := b.captured.filter (fun p => !(releaseEval computedClass p.2))
          jobs := b.jobs.filter (fun j => decide (∀ e ∈ unblocked, e.JobID ≠ j))
          stats := if unblocked.length ≠ 0 then
              { TotalEscaped := 0
                TotalBlocked := b.stats.TotalBlocked - (unblocked.length : Int) }
            else b.stats }
      enqueued := unblocked
      lockReleased := true }

/-- Flush from blocked_evals.go, together with the stop signal it emits: the
second component is true iff the stop channel is closed (which happens
exactly when a worker was running).  The state resets running to false,
zeroes both counters and empties all four collections; enabled is not
touched.  The channel re-creations have no further observable content
here. -/
def FlushSig (b : BlockedEvals) : BlockedEvals × Bool :=
  ({ b with
      running := false
      stats := { TotalEscaped := 0, TotalBlocked := 0 }
      captured := []
      escaped := []
      jobs := []
      duplicates := [] }, b.running)

/-- Flush: the state part of FlushSig. -/
def Flush (b : BlockedEvals) : BlockedEvals := (FlushSig b).1

/-- The lock-held part of SetEnabled: set the enabled flag, and if no worker
is running, mark running and start one; the second component is true iff a
worker was started by this call. -/
def setEnabledLocked (enabled : Bool) (b : BlockedEvals) : BlockedEvals × Bool :=
  ({ b with enabled := enabled, running := true }, !b.running)

/-- SetEnabled from blocked_evals.go: the locked part above, then a Flush
when the flag was set to false. -/
def SetEnabled (enabled : Bool) (b : BlockedEvals) : BlockedEvals :=
  let mid := (setEnabledLocked enabled b).1
  if enabled = false then Flush mid else mid

/-- The SCAN step of GetDuplicates, performed under the exclusive lock: if
the duplicates list is non-empty, take it and clear the field, returning the
taken list; otherwise return none (the Go code then proceeds to wait on the
stop channel, the timer and the duplicate wake-up channel, paths that return
no data). -/
def GetDuplicatesScan (b : BlockedEvals) : BlockedEvals × Option (List Evaluation) :=
  if b.duplicates.length ≠ 0 then ({ b with duplicates := [] }, some b.duplicates)
  else (b, none)

/-- Stats from blocked_evals.go: a fresh copy of both counters. -/
def Stats (b : BlockedEvals) : BlockedStats :=
  { TotalEscaped := b.stats.TotalEscaped, TotalBlocked := b.stats.TotalBlocked }

/-- Folding Block over a list of evaluations, first element first. -/
def blockAll (es : List Evaluation) (b : BlockedEvals) : BlockedEvals :=
  es.foldl (fun s e => Block e s) b

/-- A freshly enabled tracker: NewBlockedEvals after SetEnabled true. -/
def startState : BlockedEvals := SetEnabled true NewBlockedEvals

/-- Number of entries for a given job in captured together with escaped. -/
def jobCount (J : String) (b : BlockedEvals) : Nat :=
  (b.captured.filter (fun p => decide (p.2.JobID = J))).length +
  (b.escaped.filter (fun p => decide (p.2.JobID = J))).length

/-- The duplicates recorded for a given job, in list order. -/
def dupsFor (J : String) (b : BlockedEvals) : List Evaluation :=
  b.duplicates.filter (fun x => decide (x.JobID = J))

/-- The dedup invariant of the store: every job has at most one evaluation in
captured together with escaped, and is in the jobs set iff it has exactly
one. -/
def DedupInv (b : BlockedEvals) : Prop :=
  ∀ J, jobCount J b ≤ 1 ∧ (J ∈ b.jobs ↔ jobCount J b = 1)

/-- The counter invariant of the store: TotalBlocked counts captured together
with escaped, TotalEscaped counts escaped. -/
def StatsInv (b : BlockedEvals) : Prop :=
  b.stats.TotalBlocked = (b.captured.length : Int) + (b.escaped.length : Int) ∧
  b.stats.TotalEscaped = (b.escaped.length : Int)

/-- A captured evaluation for job-1 with no eligibility entries. -/
def eval1 : Evaluation :=
  { ID := "eval-1", JobID := "job-1", EscapedComputedClass := false, ClassEligibility := [] }

/-- A second evaluation for job-1, arriving after eval1. -/
def eval2 : Evaluation :=
  { ID := "eval-2", JobID := "job-1", EscapedComputedClass := false, ClassEligibility := [] }

/-- A captured evaluation explicitly ineligible for classA. -/
def evalC : Evaluation :=
  { ID := "eval-C", JobID := "job-C", EscapedComputedClass := false,
    ClassEligibility := [("classA", false)] }

/-- An evaluation that escaped computed node classes. -/
def evalE : Evaluation :=
  { ID := "eval-E", JobID := "job-E", EscapedComputedClass := true, ClassEligibility := [] }

/-- The tracker after blocking eval1 and then its duplicate eval2. -/
def scenarioB : BlockedEvals := Block eval2 (Block eval1 startState)

/-- The tracker after blocking the captured evaluation evalC. -/
def stateC : BlockedEvals := Block evalC startState

/-- The tracker after blocking the escaped evaluation evalE. -/
def stateE : BlockedEvals := Block evalE startState

/-- stateC with the worker already stopped, as after a concurrent Flush. -/
def stoppedState : BlockedEvals := { stateC with running := false }

/-- Inserting under a key absent from the association list appends. -/
theorem mapInsert_eq_append {β : Type} (k : String) (v : β) (m : List (String × β))
    (h : lookupA k m = none) : mapInsert k v m = m ++ [(k, v)] := by
  induction m with
  | nil => rfl
  | cons p rest ih =>
    obtain ⟨k2, v2⟩ := p
    by_cases hk : k2 = k
    · simp [lookupA, hk] at h
    · simp only [lookupA, hk, if_false, if_neg hk] at h
      simp [mapInsert, hk, ih h]

/-- Inserting under one key does not change lookup under another. -/
theorem lookupA_mapInsert_ne {β : Type} (a k : String) (v : β) (m : List (String × β))
    (h : a ≠ k) : lookupA a (mapInsert k v m) = lookupA a m := by
  have hka : ¬(k = a) := fun hh => h hh.symm
  induction m with
  | nil => simp [mapInsert, lookupA, hka]
  | cons p rest ih =>
    obtain ⟨k2, v2⟩ := p
    by_cases hk : k2 = k
    · subst hk
      simp [mapInsert, lookupA, hka]
    · simp only [mapInsert, if_neg hk, lookupA]
      by_cases ha : k2 = a
      · simp [ha]
      · simp [ha, ih]

/-- The lengths of a filter and of the complementary filter sum to the
length of the list. -/
theorem length_filter_add_not {α : Type} (p : α → Bool) (l : List α) :
    (l.filter p).length + (l.filter (fun a => !(p a))).length = l.length := by
  induction l with
  | nil => rfl
  | cons a l ih => cases h : p a <;> simp [List.filter_cons, h] <;> omega

/-- A list holding two distinct elements has length at least two. -/
theorem two_le_length_of_mem_ne {α : Type} {a b : α} {l : List α}
    (ha : a ∈ l) (hb : b ∈ l) (h : a ≠ b) : 2 ≤ l.length := by
  match l with
  | [] => cases ha
  | [x] =>
    simp only [List.mem_singleton] at ha hb
    exact absurd (ha.trans hb.symm) h
  | x :: y :: t => simp only [List.length_cons]; omega

/-- Block never changes the enabled flag. -/
theorem Block_enabled_eq (e : Evaluation) (b : BlockedEvals) :
    (Block e b).enabled = b.enabled := by
  unfold Block
  repeat' split
  all_goals rfl

/-- Block never changes the running flag. -/
theorem Block_running_eq (e : Evaluation) (b : BlockedEvals) :
    (Block e b).running = b.running := by
  unfold Block
  repeat' split
  all_goals rfl

/-- Block on a disabled tracker is the identity. -/
theorem Block_not_enabled (e : Evaluation) (b : BlockedEvals) (h : b.enabled = false) :
    Block e b = b := by
  simp [Block, h]

/-- Block on a tracker already tracking the job only appends a duplicate. -/
theorem Block_dup (e : Evaluation) (b : BlockedEvals) (hen : b.enabled = true)
    (hd : e.JobID ∈ b.jobs) :
    Block e b = { b with duplicates := b.duplicates ++ [e] } := by
  simp [Block, hen, hd]

/-- Block of an escaped evaluation for an untracked job. -/
theorem Block_new_esc (e : Evaluation) (b : BlockedEvals) (hen : b.enabled = true)
    (hd : e.JobID ∉ b.jobs) (hx : e.EscapedComputedClass = true) :
    Block e b =
      { b with
        stats := { TotalEscaped := b.stats.TotalEscaped + 1
                   TotalBlocked := b.stats.TotalBlocked + 1 }
        jobs := e.JobID :: b.jobs
        escaped := mapInsert e.ID e b.escaped } := by
  simp [Block, hen, hd, hx]

/-- Block of a captured evaluation for an untracked job. -/
theorem Block_new_cap (e : Evaluation) (b : BlockedEvals) (hen : b.enabled = true)
    (hd : e.JobID ∉ b.jobs) (hx : e.EscapedComputedClass = false) :
    Block e b =
      { b with
        stats := { b.stats with TotalBlocked := b.stats.TotalBlocked + 1 }
        jobs := e.JobID :: b.jobs
        captured := mapInsert e.ID e b.captured } := by
  simp [Block, hen, hd, hx]

/-- Block for an untracked job pushes the job onto the jobs set. -/
theorem Block_new_jobs (e : Evaluation) (b : BlockedEvals) (hen : b.enabled = true)
    (hd : e.JobID ∉ b.jobs) : (Block e b).jobs = e.JobID :: b.jobs := by
  cases hx : e.EscapedComputedClass
  · rw [Block_new_cap e b hen hd hx]
  · rw [Block_new_esc e b hen hd hx]

/-- Block for an untracked job leaves duplicates unchanged. -/
theorem Block_new_dups (e : Evaluation) (b : BlockedEvals) (hen : b.enabled = true)
    (hd : e.JobID ∉ b.jobs) : (Block e b).duplicates = b.duplicates := by
  cases hx : e.EscapedComputedClass
  · rw [Block_new_cap e b hen hd hx]
  · rw [Block_new_esc e b hen hd hx]

/-- Block only inserts under the ID of the blocked evaluation: lookups of
other keys in captured are unchanged. -/
theorem lookupA_Block_captured (e : Evaluation) (b : BlockedEvals) (k : String)
    (hk : k ≠ e.ID) : lookupA k (Block e b).captured = lookupA k b.captured := by
  unfold Block
  repeat' split
  · rfl
  · rfl
  · rfl
  · exact lookupA_mapInsert_ne k e.ID e b.captured hk

/-- Block only inserts under the ID of the blocked evaluation: lookups of
other keys in escaped are unchanged. -/
theorem lookupA_Block_escaped (e : Evaluation) (b : BlockedEvals) (k : String)
    (hk : k ≠ e.ID) : lookupA k (Block e b).escaped = lookupA k b.escaped := by
  unfold Block
  repeat' split
  · rfl
  · rfl
  · exact lookupA_mapInsert_ne k e.ID e b.escaped hk
  · rfl

/-- Claim C5: when the unblock worker receives a notification and observes
running = false, it exits without mutating any store state; however, on that
exit path the exclusive lock acquired for the notification is NOT released
(the Go return skips b.l.Unlock), so the model records lockReleased = false,
contradicting the released-lock part of the claim.  Evaluated at a concrete
stopped tracker holding one captured evaluation. -/
theorem unblock_stopped_no_mutation_lock_held :
    (unblockStep "classA" stoppedState).state = stoppedState ∧
    (unblockStep "classA" stoppedState).lockReleased = false := by
  constructor <;> rfl

/-- Claim C8: with the tracker disabled, Block is a silent no-op: the state,
and hence Stats, is exactly unchanged. -/
theorem block_disabled_noop (b : BlockedEvals) (e : Evaluation) (h : b.enabled = false) :
    Block e b = b ∧ Stats (Block e b) = Stats b := by
  have hb : Block e b = b := Block_not_enabled e b h
  exact ⟨hb, by rw [hb]⟩

/-- Witness for C8 at the fresh disabled tracker and evalC. -/
theorem block_disabled_noop_witness :
    NewBlockedEvals.enabled = false ∧
    (Block evalC NewBlockedEvals = NewBlockedEvals ∧
     Stats (Block evalC NewBlockedEvals) = Stats NewBlockedEvals) :=
  ⟨rfl, block_disabled_noop NewBlockedEvals evalC rfl⟩

/-- Claim C9: any SetEnabled call on a tracker with no running worker starts
a worker (the started component of setEnabledLocked is true) and sets running
to true, regardless of the flag value; in particular SetEnabled false on a
fresh tracker starts a worker, and the Flush triggered by the same call then
closes the stop channel (the FlushSig signal is true), leaving running
false. -/
theorem setEnabled_starts_worker (b : BlockedEvals) (flag : Bool) (h : b.running = false) :
    (setEnabledLocked flag b).2 = true ∧
    (setEnabledLocked flag b).1.running = true ∧
    (setEnabledLocked false NewBlockedEvals).2 = true ∧
    (FlushSig (setEnabledLocked false NewBlockedEvals).1).2 = true ∧
    (SetEnabled false NewBlockedEvals).running = false := by
  refine ⟨?_, rfl, rfl, rfl, rfl⟩
  simp [setEnabledLocked, h]

/-- Witness for C9 at the fresh tracker with flag true. -/
theorem setEnabled_starts_worker_witness :
    NewBlockedEvals.running = false ∧
    ((setEnabledLocked true NewBlockedEvals).2 = true ∧
     (setEnabledLocked true NewBlockedEvals).1.running = true ∧
     (setEnabledLocked false NewBlockedEvals).2 = true ∧
     (FlushSig (setEnabledLocked false NewBlockedEvals).1).2 = true ∧
     (SetEnabled false NewBlockedEvals).running = false) :=
  ⟨rfl, setEnabled_starts_worker NewBlockedEvals true rfl⟩

/-- Claim C10: Flush never modifies the enabled flag and stops the worker;
if the tracker was enabled, a Block after the Flush is recorded as blocked
(TotalBlocked becomes 1, the job is tracked, the evaluation lands in captured
or escaped) even though running stays false until the next SetEnabled. -/
theorem flush_keeps_enabled (b : BlockedEvals) (e : Evaluation) :
    (Flush b).enabled = b.enabled ∧
    (Flush b).running = false ∧
    (b.enabled = true →
      (Block e (Flush b)).stats.TotalBlocked = 1 ∧
      e.JobID ∈ (Block e (Flush b)).jobs ∧
      ((e.ID, e) ∈ (Block e (Flush b)).captured ∨ (e.ID, e) ∈ (Block e (Flush b)).escaped) ∧
      (Block e (Flush b)).running = false) := by
  refine ⟨rfl, rfl, fun hen => ?_⟩
  have hen2 : (Flush b).enabled = true := hen
  have hd : e.JobID ∉ (Flush b).jobs := by simp [Flush, FlushSig]
  cases hx : e.EscapedComputedClass
  · rw [Block_new_cap e (Flush b) hen2 hd hx]
    refine ⟨rfl, by simp, Or.inl ?_, rfl⟩
    simp [Flush, FlushSig, mapInsert]
  · rw [Block_new_esc e (Flush b) hen2 hd hx]
    refine ⟨rfl, by simp, Or.inr ?_, rfl⟩
    simp [Flush, FlushSig, mapInsert]

/-- Witness for C10 at stateC and evalE. -/
theorem flush_keeps_enabled_witness :
    (Flush stateC).enabled = stateC.enabled ∧
    (Flush stateC).running = false ∧
    stateC.enabled = true ∧
    (Block evalE (Flush stateC)).stats.TotalBlocked = 1 ∧
    evalE.JobID ∈ (Block evalE (Flush stateC)).jobs ∧
    ((evalE.ID, evalE) ∈ (Block evalE (Flush stateC)).captured ∨
     (evalE.ID, evalE) ∈ (Block evalE (Flush stateC)).escaped) ∧
    (Block evalE (Flush stateC)).running = false := by
  have h := flush_keeps_enabled stateC evalE
  have hen : stateC.enabled = true := by decide
  obtain ⟨h1, h2, h3⟩ := h
  obtain ⟨h4, h5, h6, h7⟩ := h3 hen
  exact ⟨h1, h2, hen, h4, h5, h6, h7⟩

/-- Claim C6: after any Flush, Stats returns zero counters, all four
collections are empty, Flush is idempotent (a second immediate Flush leaves
the state identical and emits no stop signal), and on an enabled tracker a
subsequent Block for a previously blocked job is accepted as new: it is not
appended to duplicates, the job is tracked and TotalBlocked becomes 1. -/
theorem flush_resets (b : BlockedEvals) (e : Evaluation) :
    Stats (Flush b) = { TotalEscaped := 0, TotalBlocked := 0 } ∧
    (Flush b).captured = [] ∧
    (Flush b).escaped = [] ∧
    (Flush b).jobs = [] ∧
    (Flush b).duplicates = [] ∧
    Flush (Flush b) = Flush b ∧
    (FlushSig (Flush b)).2 = false ∧
    (b.enabled = true →
      (Block e (Flush b)).duplicates = [] ∧
      e.JobID ∈ (Block e (Flush b)).jobs ∧
      (Block e (Flush b)).stats.TotalBlocked = 1) := by
  refine ⟨rfl, rfl, rfl, rfl, rfl, rfl, rfl, fun hen => ?_⟩
  have hen2 : (Flush b).enabled = true := hen
  have hd : e.JobID ∉ (Flush b).jobs := by simp [Flush, FlushSig]
  refine ⟨?_, ?_, ?_⟩
  · rw [Block_new_dups e (Flush b) hen2 hd]
    simp [Flush, FlushSig]
  · rw [Block_new_jobs e (Flush b) hen2 hd]
    simp
  · cases hx : e.EscapedComputedClass
    · rw [Block_new_cap e (Flush b) hen2 hd hx]
      simp [Flush, FlushSig]
    · rw [Block_new_esc e (Flush b) hen2 hd hx]
      simp [Flush, FlushSig]

/-- Witness for C6 at scenarioB (which previously blocked job-1) and eval1. -/
theorem flush_resets_witness :
    Stats (Flush scenarioB) = { TotalEscaped := 0, TotalBlocked := 0 } ∧
    Flush (Flush scenarioB) = Flush scenarioB ∧
    scenarioB.enabled = true ∧
    (Block eval1 (Flush scenarioB)).duplicates = [] ∧
    eval1.JobID ∈ (Block eval1 (Flush scenarioB)).jobs ∧
    (Block eval1 (Flush scenarioB)).stats.TotalBlocked = 1 := by
  have h := flush_resets scenarioB eval1
  have hen : scenarioB.enabled = true := by decide
  obtain ⟨h1, _, _, _, _, h6, _, h8⟩ := h
  obtain ⟨h9, h10, h11⟩ := h8 hen
  exact ⟨h1, h6, hen, h9, h10, h11⟩

/-- Claim C7: when the duplicates list is non-empty, the GetDuplicates scan
returns the entire accumulated list in arrival order and clears it in the
same atomic step; in particular after Block eval1 then Block eval2 for the
same job, the scan returns exactly the singleton eval2 and TotalBlocked
is 1. -/
theorem getDuplicates_drains (b : BlockedEvals) (h : b.duplicates ≠ []) :
    (GetDuplicatesScan b).2 = some b.duplicates ∧
    (GetDuplicatesScan b).1 = { b with duplicates := [] } ∧
    (GetDuplicatesScan scenarioB).2 = some [eval2] ∧
    (GetDuplicatesScan scenarioB).1.duplicates = [] ∧
    (Stats scenarioB).TotalBlocked = 1 := by
  have hlen : b.duplicates.length ≠ 0 := by
    simpa [List.length_eq_zero] using h
  refine ⟨?_, ?_, by decide, by decide, by decide⟩
  · simp [GetDuplicatesScan, hlen]
  · simp [GetDuplicatesScan, hlen]

/-- Witness for C7 at scenarioB. -/
theorem getDuplicates_drains_witness :
    scenarioB.duplicates ≠ [] ∧
    ((GetDuplicatesScan scenarioB).2 = some scenarioB.duplicates ∧
     (GetDuplicatesScan scenarioB).1 = { scenarioB with duplicates := [] } ∧
     (GetDuplicatesScan scenarioB).2 = some [eval2] ∧
     (GetDuplicatesScan scenarioB).1.duplicates = [] ∧
     (Stats scenarioB).TotalBlocked = 1) :=
  ⟨by decide, getDuplicates_drains scenarioB (by decide)⟩

/-- Claim C3: a notification for any class releases every evaluation in
escaped regardless of the class value: afterwards the escaped set is empty
and TotalEscaped is 0, and every previously escaped evaluation is in the
batch handed to the downstream queue with its job removed from jobs.  Stated
for a running worker on a state whose TotalEscaped counter matches the
escaped set, as every reachable state has. -/
theorem unblock_releases_escaped (b : BlockedEvals) (c : String)
    (hrun : b.running = true)
    (hesc : b.stats.TotalEscaped = (b.escaped.length : Int)) :
    (unblockStep c b).state.escaped = [] ∧
    (unblockStep c b).state.stats.TotalEscaped = 0 ∧
    ∀ id e, (id, e) ∈ b.escaped →
      e ∈ (unblockStep c b).enqueued ∧ e.JobID ∉ (unblockStep c b).state.jobs := by
  have hnr : ¬(b.running = false) := by simp [hrun]
  refine ⟨?_, ?_, ?_⟩
  · simp [unblockStep, if_neg hnr]
  · simp only [unblockStep, if_neg hnr]
    by_cases hlen :
      (b.escaped.map (fun p => p.2) ++
        (b.captured.filter (fun p => releaseEval c p.2)).map (fun p => p.2)).length ≠ 0
    · rw [if_pos hlen]
    · rw [if_neg hlen]
      push_neg at hlen
      have hes : b.escaped = [] := by
        rcases List.append_eq_nil.mp (List.length_eq_zero.mp hlen) with ⟨h1, h2⟩
        exact List.map_eq_nil_iff.mp h1
      rw [hesc, hes]
      simp
  · intro id e hmem
    constructor
    · simp only [unblockStep, if_neg hnr]
      exact List.mem_append_left _ (List.mem_map.mpr ⟨(id, e), hmem, rfl⟩)
    · simp only [unblockStep, if_neg hnr]
      intro hin
      have h2 := (List.mem_filter.mp hin).2
      have h3 := of_decide_eq_true h2
      exact h3 e (List.mem_append_left _ (List.mem_map.mpr ⟨(id, e), hmem, rfl⟩)) rfl

/-- Witness for C3 at stateE, which holds the escaped evaluation evalE. -/
theorem unblock_releases_escaped_witness :
    stateE.running = true ∧
    stateE.stats.TotalEscaped = (stateE.escaped.length : Int) ∧
    ((unblockStep "anyClass" stateE).state.escaped = [] ∧
     (unblockStep "anyClass" stateE).state.stats.TotalEscaped = 0 ∧
     ∀ id e, (id, e) ∈ stateE.escaped →
       e ∈ (unblockStep "anyClass" stateE).enqueued ∧
       e.JobID ∉ (unblockStep "anyClass" stateE).state.jobs) :=
  ⟨by decide, by decide, unblock_releases_escaped stateE "anyClass" (by decide) (by decide)⟩

/-- Claim C4: the counter equalities TotalBlocked = |captured| + |escaped|
and TotalEscaped = |escaped| are preserved by every Block call (under the
documented uniqueness of evaluation IDs, expressed as the blocked ID being
absent from both maps), by every processing of one unblock notification, and
hold unconditionally after every Flush; they also hold at the freshly
enabled tracker, so they hold after every operation.  Duplicates are never
counted: the duplicates list appears in neither equality. -/
theorem counters_match (b : BlockedEvals) (e : Evaluation) (c : String) :
    (StatsInv b → lookupA e.ID b.captured = none → lookupA e.ID b.escaped = none →
       StatsInv (Block e b)) ∧
    (StatsInv b → StatsInv (unblockStep c b).state) ∧
    StatsInv (Flush b) ∧
    StatsInv startState := by
  refine ⟨?_, ?_, ⟨by simp [Flush, FlushSig], by simp [Flush, FlushSig]⟩,
    ⟨by decide, by decide⟩⟩
  · intro hinv hc he
    obtain ⟨h1, h2⟩ := hinv
    by_cases hen : b.enabled = true
    · by_cases hd : e.JobID ∈ b.jobs
      · rw [Block_dup e b hen hd]
        exact ⟨h1, h2⟩
      · cases hx : e.EscapedComputedClass
        · rw [Block_new_cap e b hen hd hx]
          constructor
          · show b.stats.TotalBlocked + 1 =
              ((mapInsert e.ID e b.captured).length : Int) + (b.escaped.length : Int)
            rw [mapInsert_eq_append e.ID e b.captured hc]
            simp only [List.length_append, List.length_singleton]
            omega
          · exact h2
        · rw [Block_new_esc e b hen hd hx]
          constructor
          · show b.stats.TotalBlocked + 1 =
              (b.captured.length : Int) + ((mapInsert e.ID e b.escaped).length : Int)
            rw [mapInsert_eq_append e.ID e b.escaped he]
            simp only [List.length_append, List.length_singleton]
            omega
          · show b.stats.TotalEscaped + 1 = ((mapInsert e.ID e b.escaped).length : Int)
            rw [mapInsert_eq_append e.ID e b.escaped he]
            simp only [List.length_append, List.length_singleton]
            omega
    · rw [Block_not_enabled e b (by simpa using hen)]
      exact ⟨h1, h2⟩
  · intro hinv
    obtain ⟨h1, h2⟩ := hinv
    by_cases hrun : b.running = false
    · simp only [unblockStep, if_pos hrun]
      exact ⟨h1, h2⟩
    · have hpart := length_filter_add_not (fun p => releaseEval c p.2) b.captured
      simp only [unblockStep, if_neg hrun]
      constructor
      · show (if _ then _ else b.stats).TotalBlocked = _
        by_cases hlen :
          (b.escaped.map (fun p => p.2) ++
            (b.captured.filter (fun p => releaseEval c p.2)).map (fun p => p.2)).length ≠ 0
        · rw [if_pos hlen]
          show b.stats.TotalBlocked - _ =
            ((b.captured.filter (fun p => !(releaseEval c p.2))).length : Int) +
              (([] : List (String × Evaluation)).length : Int)
          simp only [List.length_append, List.length_map, List.length_nil]
          omega
        · rw [if_neg hlen]
          push_neg at hlen
          rcases List.append_eq_nil.mp (List.length_eq_zero.mp hlen) with ⟨hA, hB⟩
          have hes : b.escaped = [] := List.map_eq_nil_iff.mp hA
          have hRel : b.captured.filter (fun p => releaseEval c p.2) = [] :=
            List.map_eq_nil_iff.mp hB
          have hKeep : b.captured.filter (fun p => !(releaseEval c p.2)) = b.captured := by
            rw [List.filter_eq_self]
            intro a ha
            have := List.filter_eq_nil_iff.mp hRel a ha
            simp [this]
          show b.stats.TotalBlocked =
            ((b.captured.filter (fun p => !(releaseEval c p.2))).length : Int) +
              (([] : List (String × Evaluation)).length : Int)
          rw [hKeep]
          rw [hes] at h1
          simpa using h1
      · show (if _ then _ else b.stats).TotalEscaped = _
        by_cases hlen :
          (b.escaped.map (fun p => p.2) ++
            (b.captured.filter (fun p => releaseEval c p.2)).map (fun p => p.2)).length ≠ 0
        · rw [if_pos hlen]
          simp
        · rw [if_neg hlen]
          push_neg at hlen
          rcases List.append_eq_nil.mp (List.length_eq_zero.mp hlen) with ⟨hA, hB⟩
          have hes : b.escaped = [] := List.map_eq_nil_iff.mp hA
          rw [hes] at h2
          simpa using h2

/-- Witness for C4 at stateC with evalE and classA. -/
theorem counters_match_witness :
    StatsInv stateC ∧
    lookupA evalE.ID stateC.captured = none ∧
    lookupA evalE.ID stateC.escaped = none ∧
    StatsInv (Block evalE stateC) ∧
    StatsInv (unblockStep "classA" stateC).state ∧
    StatsInv (Flush stateC) := by
  have hinv : StatsInv stateC := ⟨by decide, by decide⟩
  have h := counters_match stateC evalE "classA"
  exact ⟨hinv, by decide, by decide, h.1 hinv (by decide) (by decide), h.2.1 hinv, h.2.2.1⟩

/-- Claim C2: when the worker processes a notification for a class, a
captured evaluation whose ClassEligibility maps that class to false stays
blocked (it remains in captured and its job stays in jobs), while a captured
evaluation whose ClassEligibility maps the class to true or has no entry for
it is released: removed from captured and from jobs, and included in the
batch handed to the downstream queue.  Stated for a running worker on a
state where the job is tracked and has at most one blocked evaluation, as
every reachable state has. -/
theorem unblock_class_eligibility (b : BlockedEvals) (c id : String) (e : Evaluation)
    (hrun : b.running = true)
    (hmem : (id, e) ∈ b.captured)
    (hjob : e.JobID ∈ b.jobs)
    (huniq : jobCount e.JobID b ≤ 1) :
    (lookupA c e.ClassEligibility = some false →
       (id, e) ∈ (unblockStep c b).state.captured ∧
       e.JobID ∈ (unblockStep c b).state.jobs) ∧
    (lookupA c e.ClassEligibility ≠ some false →
       (id, e) ∉ (unblockStep c b).state.captured ∧
       e.JobID ∉ (unblockStep c b).state.jobs ∧
       e ∈ (unblockStep c b).enqueued) := by
  have hnr : ¬(b.running = false) := by simp [hrun]
  constructor
  · intro hlook
    have hrel : releaseEval c e = false := by simp [releaseEval, hlook]
    constructor
    · simp only [unblockStep, if_neg hnr]
      exact List.mem_filter.mpr ⟨hmem, by simp [hrel]⟩
    · simp only [unblockStep, if_neg hnr]
      refine List.mem_filter.mpr ⟨hjob, decide_eq_true ?_⟩
      intro e2 h2 heq
      rcases List.mem_append.mp h2 with hesc | hrelm
      · rcases List.mem_map.mp hesc with ⟨p, hp, rfl⟩
        have hmc : (id, e) ∈ b.captured.filter (fun q => decide (q.2.JobID = e.JobID)) :=
          List.mem_filter.mpr ⟨hmem, by simp⟩
        have hme : p ∈ b.escaped.filter (fun q => decide (q.2.JobID = e.JobID)) :=
          List.mem_filter.mpr ⟨hp, by simp [heq]⟩
        have hc1 := List.length_pos_of_mem hmc
        have he1 := List.length_pos_of_mem hme
        have h2le : 2 ≤ jobCount e.JobID b := by unfold jobCount; omega
        omega
      · rcases List.mem_map.mp hrelm with ⟨p, hp, rfl⟩
        have hp2 := List.mem_filter.mp hp
        have hne : p ≠ (id, e) := by
          intro hpe
          rw [hpe] at hp2
          simp [hrel] at hp2
        have hmc1 : (id, e) ∈ b.captured.filter (fun q => decide (q.2.JobID = e.JobID)) :=
          List.mem_filter.mpr ⟨hmem, by simp⟩
        have hmc2 : p ∈ b.captured.filter (fun q => decide (q.2.JobID = e.JobID)) :=
          List.mem_filter.mpr ⟨hp2.1, by simp [heq]⟩
        have h2mem := two_le_length_of_mem_ne hmc2 hmc1 hne
        have h2le : 2 ≤ jobCount e.JobID b := by unfold jobCount; omega
        omega
  · intro hlook
    have hrel : releaseEval c e = true := by
      unfold releaseEval
      cases hl : lookupA c e.ClassEligibility with
      | none => rfl
      | some x =>
        cases x with
        | false => exact absurd hl hlook
        | true => rfl
    refine ⟨?_, ?_, ?_⟩
    · simp only [unblockStep, if_neg hnr]
      intro hin
      have h2 := (List.mem_filter.mp hin).2
      simp [hrel] at h2
    · simp only [unblockStep, if_neg hnr]
      intro hin
      have h2 := of_decide_eq_true (List.mem_filter.mp hin).2
      exact h2 e
        (List.mem_append_right _
          (List.mem_map.mpr ⟨(id, e), List.mem_filter.mpr ⟨hmem, hrel⟩, rfl⟩)) rfl
    · simp only [unblockStep, if_neg hnr]
      exact List.mem_append_right _
        (List.mem_map.mpr ⟨(id, e), List.mem_filter.mpr ⟨hmem, hrel⟩, rfl⟩)

/-- Witness for C2 at stateC, whose captured evaluation evalC is explicitly
ineligible for classA. -/
theorem unblock_class_eligibility_witness :
    stateC.running = true ∧
    ("eval-C", evalC) ∈ stateC.captured ∧
    evalC.JobID ∈ stateC.jobs ∧
    jobCount evalC.JobID stateC ≤ 1 ∧
    ((lookupA "classA" evalC.ClassEligibility = some false →
        ("eval-C", evalC) ∈ (unblockStep "classA" stateC).state.captured ∧
        evalC.JobID ∈ (unblockStep "classA" stateC).state.jobs) ∧
     (lookupA "classA" evalC.ClassEligibility ≠ some false →
        ("eval-C", evalC) ∉ (unblockStep "classA" stateC).state.captured ∧
        evalC.JobID ∉ (unblockStep "classA" stateC).state.jobs ∧
        evalC ∈ (unblockStep "classA" stateC).enqueued)) :=
  ⟨by decide, by decide, by decide, by decide,
   unblock_class_eligibility stateC "classA" "eval-C" evalC
     (by decide) (by decide) (by decide) (by decide)⟩

/-- Blocking a fresh evaluation for an untracked job raises the jobCount of
its job by one and leaves every other jobCount unchanged. -/
theorem jobCount_Block_new (e : Evaluation) (b : BlockedEvals) (J : String)
    (hen : b.enabled = true) (hd : e.JobID ∉ b.jobs)
    (hc : lookupA e.ID b.captured = none) (he : lookupA e.ID b.escaped = none) :
    jobCount J (Block e b) = jobCount J b + (if e.JobID = J then 1 else 0) := by
  cases hx : e.EscapedComputedClass
  · rw [Block_new_cap e b hen hd hx]
    unfold jobCount
    dsimp only
    rw [mapInsert_eq_append e.ID e b.captured hc]
    rw [List.filter_append, List.length_append]
    by_cases hJ : e.JobID = J
    · rw [if_pos hJ]
      simp [hJ]
      omega
    · rw [if_neg hJ]
      simp [hJ]
  · rw [Block_new_esc e b hen hd hx]
    unfold jobCount
    dsimp only
    rw [mapInsert_eq_append e.ID e b.escaped he]
    rw [List.filter_append, List.length_append]
    by_cases hJ : e.JobID = J
    · rw [if_pos hJ]
      simp [hJ]
      omega
    · rw [if_neg hJ]
      simp [hJ]

/-- Block preserves the dedup invariant when the blocked ID is fresh. -/
theorem DedupInv_Block (e : Evaluation) (b : BlockedEvals)
    (hc : lookupA e.ID b.captured = none) (he : lookupA e.ID b.escaped = none)
    (hinv : DedupInv b) : DedupInv (Block e b) := by
  by_cases hen : b.enabled = true
  · by_cases hd : e.JobID ∈ b.jobs
    · intro J
      rw [Block_dup e b hen hd]
      exact hinv J
    · intro J
      have hcnt := jobCount_Block_new e b J hen hd hc he
      have hjobs := Block_new_jobs e b hen hd
      obtain ⟨h1, h2⟩ := hinv J
      by_cases hJ : e.JobID = J
      · have h0 : jobCount J b = 0 := by
          have hne1 : jobCount J b ≠ 1 := fun hh => hd (by rw [hJ]; exact h2.mpr hh)
          omega
        rw [hcnt, h0, if_pos hJ, hjobs]
        refine ⟨by omega, ?_⟩
        simp [hJ]
      · rw [hcnt, if_neg hJ, hjobs]
        have hJ2 : ¬(J = e.JobID) := fun hh => hJ hh.symm
        refine ⟨by omega, ?_⟩
        rw [List.mem_cons]
        simp only [hJ2, false_or]
        simpa using h2
  · intro J
    rw [Block_not_enabled e b (by simpa using hen)]
    exact hinv J

/-- The freshly enabled tracker satisfies the dedup invariant. -/
theorem DedupInv_startState : DedupInv startState := by
  intro J
  have h0 : jobCount J startState = 0 := rfl
  have hj : startState.jobs = ([] : List String) := rfl
  refine ⟨by omega, ?_⟩
  rw [h0, hj]
  simp

/-- Folding Block over an ID-distinct list of fresh evaluations, from an
enabled state satisfying the dedup invariant, keeps the tracker enabled,
preserves the invariant, and appends to duplicates, per job and in call
order, exactly the evaluations whose job was already tracked at their
arrival: all of them for an already tracked job, all but the first
otherwise. -/
theorem blockAll_spec (es : List Evaluation) : ∀ b : BlockedEvals,
    b.enabled = true → DedupInv b →
    (∀ e ∈ es, lookupA e.ID b.captured = none ∧ lookupA e.ID b.escaped = none) →
    es.Pairwise (fun a a2 => a.ID ≠ a2.ID) →
    (blockAll es b).enabled = true ∧ DedupInv (blockAll es b) ∧
    ∀ J, dupsFor J (blockAll es b) =
      dupsFor J b ++ (if J ∈ b.jobs then es.filter (fun x => decide (x.JobID = J))
                      else (es.filter (fun x => decide (x.JobID = J))).tail) := by
  induction es with
  | nil =>
    intro b hen hinv hfresh hpair
    refine ⟨hen, hinv, fun J => ?_⟩
    show dupsFor J b = dupsFor J b ++ _
    simp
  | cons e es ih =>
    intro b hen hinv hfresh hpair
    have hfe := hfresh e (List.mem_cons_self e es)
    have hpc := List.pairwise_cons.mp hpair
    have hen2 : (Block e b).enabled = true := by rw [Block_enabled_eq]; exact hen
    have hinv2 : DedupInv (Block e b) := DedupInv_Block e b hfe.1 hfe.2 hinv
    have hfresh2 : ∀ e2 ∈ es,
        lookupA e2.ID (Block e b).captured = none ∧
        lookupA e2.ID (Block e b).escaped = none := by
      intro e2 he2
      have hne : e2.ID ≠ e.ID := fun hh => (hpc.1 e2 he2) hh.symm
      obtain ⟨hc2, he2m⟩ := hfresh e2 (List.mem_cons_of_mem e he2)
      exact ⟨by rw [lookupA_Block_captured e b e2.ID hne]; exact hc2,
             by rw [lookupA_Block_escaped e b e2.ID hne]; exact he2m⟩
    obtain ⟨ih1, ih2, ih3⟩ := ih (Block e b) hen2 hinv2 hfresh2 hpc.2
    have hfold : blockAll (e :: es) b = blockAll es (Block e b) := rfl
    refine ⟨by rw [hfold]; exact ih1, by rw [hfold]; exact ih2, fun J => ?_⟩
    rw [hfold, ih3 J]
    by_cases hd : e.JobID ∈ b.jobs
    · have hjobs : (Block e b).jobs = b.jobs := by rw [Block_dup e b hen hd]
      have hdups : dupsFor J (Block e b) =
          dupsFor J b ++ [e].filter (fun x => decide (x.JobID = J)) := by
        rw [Block_dup e b hen hd]
        unfold dupsFor
        dsimp only
        rw [List.filter_append]
      rw [hjobs, hdups]
      by_cases hx : e.JobID = J
      · have hJ : J ∈ b.jobs := hx ▸ hd
        rw [if_pos hJ, if_pos hJ, List.append_assoc]
        congr 1
        simp [List.filter_cons, hx]
      · have hnil : [e].filter (fun x => decide (x.JobID = J)) = [] := by simp [hx]
        have hfe2 : (e :: es).filter (fun x => decide (x.JobID = J)) =
            es.filter (fun x => decide (x.JobID = J)) := by
          simp [List.filter_cons, hx]
        rw [hnil, List.append_nil, hfe2]
    · have hjobs := Block_new_jobs e b hen hd
      have hdups : dupsFor J (Block e b) = dupsFor J b := by
        unfold dupsFor
        rw [Block_new_dups e b hen hd]
      rw [hjobs, hdups]
      by_cases hJ : J = e.JobID
      · subst hJ
        rw [if_pos (List.mem_cons_self e.JobID b.jobs), if_neg hd]
        simp [List.filter_cons]
      · have hxne : ¬(e.JobID = J) := fun hh => hJ hh.symm
        have hfe2 : (e :: es).filter (fun x => decide (x.JobID = J)) =
            es.filter (fun x => decide (x.JobID = J)) := by
          simp [List.filter_cons, hxne]
        rw [hfe2]
        by_cases hJ2 : J ∈ b.jobs
        · rw [if_pos (List.mem_cons_of_mem _ hJ2), if_pos hJ2]
        · have hnot : J ∉ e.JobID :: b.jobs := by
            intro hh
            rcases List.mem_cons.mp hh with h | h
            · exact hJ h
            · exact hJ2 h
          rw [if_neg hnot, if_neg hJ2]

/-- Claim C1: after any sequence of Block calls on the freshly enabled
tracker, with evaluation IDs pairwise distinct as the data model documents,
every job J has at most one evaluation in captured together with escaped, J
is in jobs iff it has exactly one, and the duplicates recorded for J are
exactly all Block arguments for J except the first, in call order. -/
theorem block_dedup (es : List Evaluation)
    (hids : es.Pairwise (fun a a2 => a.ID ≠ a2.ID)) (J : String) :
    jobCount J (blockAll es startState) ≤ 1 ∧
    (J ∈ (blockAll es startState).jobs ↔ jobCount J (blockAll es startState) = 1) ∧
    dupsFor J (blockAll es startState) =
      (es.filter (fun x => decide (x.JobID = J))).tail := by
  obtain ⟨h1, h2, h3⟩ := blockAll_spec es startState rfl DedupInv_startState
    (fun e he => ⟨rfl, rfl⟩) hids
  obtain ⟨hc1, hc2⟩ := h2 J
  refine ⟨hc1, hc2, ?_⟩
  rw [h3 J]
  have hnj : J ∉ startState.jobs := by
    rw [show startState.jobs = ([] : List String) from rfl]
    simp
  rw [if_neg hnj]
  rw [show dupsFor J startState = [] from rfl, List.nil_append]

/-- Witness for C1 on the two-element sequence eval1, eval2 for job-1. -/
theorem block_dedup_witness :
    ([eval1, eval2].Pairwise (fun a a2 => a.ID ≠ a2.ID)) ∧
    (jobCount "job-1" (blockAll [eval1, eval2] startState) ≤ 1 ∧
     ("job-1" ∈ (blockAll [eval1, eval2] startState).jobs ↔
       jobCount "job-1" (blockAll [eval1, eval2] startState) = 1) ∧
     dupsFor "job-1" (blockAll [eval1, eval2] startState) =
       ([eval1, eval2].filter (fun x => decide (x.JobID = "job-1"))).tail) :=
  ⟨by decide, block_dedup [eval1, eval2] (by decide) "job-1"⟩
